import Mathlib

/-!
Verification development for the bond-catalog update script
(src/update_data_script.py).  The embedding covers the parts of the script
with non-trivial behaviour: the reconciliation of a fresh record list with
the previously persisted catalog (merge_data, lines 330-354), the
enrichment planner and executor (main lines 420-462 and
step3_enrich_with_issue_prices, lines 246-318), and the rate-limited
issue-price fetch loop (step3_get_issue_price, lines 187-227).
-/

/-- Presence of a JSON field is ternary in the script: a key can be absent,
present with value null, or present with a value.  We embed a field as
Option (Option a): none = key absent, some none = key present but null,
some (some v) = valid value.  This predicate is the condition
"field not in record or record[field] is None" used at lines 422-423
and 444-445 of the script. -/
def missingOrNull {α : Type} : Option (Option α) → Bool
  | none => true
  | some none => true
  | some (some _) => false

/-- Entity record: one row of the JSON catalog.  The ISIN key is `key`.
The two static fields bondid and issueprice are modelled apart from the
remaining fields (market price, yield, ...), collected in `volatile`,
which merge_data and the enrichment code never touch. -/
structure Record where
  key : String
  bondid : Option (Option String)
  issueprice : Option (Option Rat)
  volatile : List (String × Option String)
deriving Repr, DecidableEq

/-- One static field of the merge at lines 350-352: the prior value wins
exactly when it is present and not null, otherwise the incoming value
is kept. -/
def mergeStatic {α : Type} (prev cur : Option (Option α)) : Option (Option α) :=
  match prev with
  | some (some v) => some (some v)
  | _ => cur

/-- The dict comprehension at line 340 keyed by ISIN: a later record with
the same key overwrites an earlier one, so lookup returns the last
matching record. -/
def buildIndex : List Record → String → Option Record
  | [], _ => none
  | r :: rs, k =>
    match buildIndex rs k with
    | some p => some p
    | none => if r.key = k then some r else none

/-- Body of the loop at lines 346-352 for one incoming record: copy each
static field from the matching prior record when that prior field is
present and non-null. -/
def mergeRecord (existing_data : List Record) (r : Record) : Record :=
  match buildIndex existing_data r.key with
  | some p =>
    { r with bondid := mergeStatic p.bondid r.bondid,
             issueprice := mergeStatic p.issueprice r.issueprice }
  | none => r

/-- merge_data, lines 330-354: if there is no existing data the new data is
returned unchanged, otherwise every new record is merged against the
index of the existing catalog. -/
def merge_data (existing_data new_data : List Record) : List Record :=
  if existing_data.isEmpty then new_data
  else new_data.map (mergeRecord existing_data)

/-- Catalog invariant: no two records share an ISIN key. -/
def nodupKeys (rs : List Record) : Prop := (rs.map Record.key).Nodup

instance decNodupKeys (rs : List Record) : Decidable (nodupKeys rs) :=
  inferInstanceAs (Decidable (rs.map Record.key).Nodup)

/-- Split a character list at every dot, used by the decimal parser. -/
def splitDot : List Char → List (List Char)
  | [] => [[]]
  | c :: cs =>
    let r := splitDot cs
    if c = '.' then [] :: r
    else
      match r with
      | h :: t => (c :: h) :: t
      | [] => [[c]]

/-- Digit run parser: accumulates decimal digits, fails on any
non-digit character. -/
def parseDigitsAux : List Char → Nat → Option Nat
  | [], acc => some acc
  | c :: cs, acc =>
    if c.isDigit then parseDigitsAux cs (10 * acc + (c.toNat - 48)) else none

/-- Parse a non-empty run of decimal digits. -/
def parseDigits (cs : List Char) : Option Nat :=
  match cs with
  | [] => none
  | _ => parseDigitsAux cs 0

/-- Modelled from the float() builtin used at line 207, on its plain
decimal fragment: optional sign, digits, optional dot, digits.  The
result is kept as (negative sign, digit value, number of fractional
digits), denoting the rational ± value / 10 ^ fracLen.  Any text outside
this fragment yields none, matching the ValueError branch at line 208. -/
def parseDecimal (cs : List Char) : Option (Bool × Nat × Nat) :=
  let signBody : Bool × List Char :=
    match cs with
    | '-' :: rest => (true, rest)
    | '+' :: rest => (false, rest)
    | cs0 => (false, cs0)
  match splitDot signBody.2 with
  | [intPart] =>
    (parseDigits intPart).map (fun n => (signBody.1, n, 0))
  | [intPart, fracPart] =>
    if intPart.isEmpty && fracPart.isEmpty then none
    else
      match (if intPart.isEmpty then some 0 else parseDigits intPart),
            (if fracPart.isEmpty then some 0 else parseDigits fracPart) with
      | some n, some f =>
        some (signBody.1, n * 10 ^ fracPart.length + f, fracPart.length)
      | _, _ => none
  | _ => none

/-- Denotation of a parsed decimal as a rational number. -/
def ratOfParts (p : Bool × Nat × Nat) : Rat :=
  (if p.1 then (-1 : Rat) else 1) * (p.2.1 : Rat) / (10 : Rat) ^ p.2.2

/-- Python str.strip(): drop leading and trailing whitespace. -/
def stripWs (cs : List Char) : List Char :=
  ((cs.dropWhile Char.isWhitespace).reverse.dropWhile Char.isWhitespace).reverse

/-- Python str.replace with a one-character pattern: turn every comma
into a dot. -/
def replaceCommaDot (cs : List Char) : List Char :=
  cs.map (fun c => if c = ',' then '.' else c)

/-- Line 206-207 of the script: strip the price text, turn every comma
into a dot, then parse it as a decimal number. -/
def parse_price_text (s : String) : Option Rat :=
  (parseDecimal (replaceCommaDot (stripWs s.data))).map ratOfParts

/-- Outcome of one HTTP request inside the fetch loop, as the loop
distinguishes them: a successful response (whose body optionally carries
the issueprice tag text), an HTTP error with its status code, or any
other exception (transport error, parse error of the response). -/
inductive Resp
  | ok (body : Option String)
  | http (status : Nat)
  | exn
deriving Repr, DecidableEq

/-- Lines 201-211: a missing issueprice tag yields none, otherwise the tag
text is normalized and parsed, an unparsable text yielding none. -/
def parseBody : Option String → Option Rat
  | none => none
  | some s => parse_price_text s

/-- The while-True loop of step3_get_issue_price (lines 195-227) run
against a finite oracle of request outcomes, one outcome consumed per
request.  The result pairs the returned value with the list of backoff
waits performed; the outer none arises only when the oracle is exhausted,
which models the loop still running (perpetual throttling never
returns).  Only the 429 branch loops: it waits for `backoff` seconds and
doubles the backoff up to the 600-second cap (lines 214-221). -/
def fetchLoop : Nat → List Resp → Option (Option Rat × List Nat)
  | _, [] => none
  | backoff, r :: rest =>
    match r with
    | Resp.ok body => some (parseBody body, [])
    | Resp.http status =>
      if status = 429 then
        match fetchLoop (min (backoff * 2) 600) rest with
        | some (res, waits) => some (res, backoff :: waits)
        | none => none
      else some (none, [])
    | Resp.exn => some (none, [])

/-- step3_get_issue_price, lines 187-227: `backoff` is a local variable
initialized to 60 at every call (line 192), so each call enters the loop
with backoff 60. -/
def step3_get_issue_price (resps : List Resp) : Option (Option Rat × List Nat) :=
  fetchLoop 60 resps

/-- Two consecutive calls of step3_get_issue_price in one run, returning
the concatenated wait sequences.  The script keeps no state between the
calls: each call re-enters the function with its own fresh backoff. -/
def run_two_fetches (rs1 rs2 : List Resp) : Option (List Nat) :=
  match step3_get_issue_price rs1, step3_get_issue_price rs2 with
  | some (_, w1), some (_, w2) => some (w1 ++ w2)
  | _, _ => none

/-- Request outcomes the loop treats as terminal failures: a successful
response with the expected tag missing or unparsable, a non-429 HTTP
error, or any other exception. -/
def isTerminalFailure : Resp → Bool
  | Resp.ok none => true
  | Resp.ok (some s) => (parse_price_text s).isNone
  | Resp.http status => status != 429
  | Resp.exn => true

/-- Rate-limit outcome: an HTTP error with status 429. -/
def is429 : Resp → Bool
  | Resp.http 429 => true
  | _ => false

/-- Lookup in the ISIN-to-bondId dict with Python dict semantics: a later
binding of the same key overwrites an earlier one. -/
def lastAssoc : List (String × String) → String → Option String
  | [], _ => none
  | (k, v) :: rest, k0 =>
    match lastAssoc rest k0 with
    | some v' => some v'
    | none => if k = k0 then some v else none

/-- The four counters of step3_enrich_with_issue_prices
(lines 273-275): bondid_added, price_found, price_not_found, plus an
instrumentation counter for the records taking the no-mapping branch at
lines 302-306. -/
structure Stats where
  bondid_added : Nat
  price_found : Nat
  price_not_found : Nat
  unresolved : Nat
deriving Repr, DecidableEq

/-- Pointwise sum of two counter tuples. -/
def addStats (a b : Stats) : Stats :=
  ⟨a.bondid_added + b.bondid_added, a.price_found + b.price_found,
   a.price_not_found + b.price_not_found, a.unresolved + b.unresolved⟩

/-- Line 282: the record carries an issueprice key whose value is not
null. -/
def hasValidIssuePrice (r : Record) : Bool :=
  match r.issueprice with
  | some (some _) => true
  | _ => false

/-- Line 287: the condition "isin and isin in isin_bond_map" — the ISIN
must be truthy (non-empty) and present in the mapping; the bondId is the
mapped value. -/
def mappedBid (m : List (String × String)) (r : Record) : Option String :=
  if r.key = "" then none else lastAssoc m r.key

/-- Loop body of lines 278-306 acting on one record: records already
carrying a valid issueprice are skipped unchanged; records with a mapped
bondId get bondid set from the mapping and issueprice set from the fetch
result, where line 296 tests Python truthiness of the result, so a null
or zero result stores null; unmapped records get bondid and issueprice
set to null. -/
def processRecord (m : List (String × String)) (fetch : String → Option Rat)
    (r : Record) : Record :=
  if hasValidIssuePrice r then r
  else
    match mappedBid m r with
    | some bid =>
      match fetch bid with
      | some p =>
        if p = 0 then { r with bondid := some (some bid), issueprice := some none }
        else { r with bondid := some (some bid), issueprice := some (some p) }
      | none => { r with bondid := some (some bid), issueprice := some none }
    | none => { r with bondid := some none, issueprice := some none }

/-- Number of remote fetch calls the loop body makes for one record: one
on the mapped branch (line 294), zero otherwise. -/
def recordCalls (m : List (String × String)) (r : Record) : Nat :=
  if hasValidIssuePrice r then 0
  else
    match mappedBid m r with
    | some _ => 1
    | none => 0

/-- Counter increments of the loop body for one record, mirroring
lines 282-306 branch by branch. -/
def recordStats (m : List (String × String)) (fetch : String → Option Rat)
    (r : Record) : Stats :=
  if hasValidIssuePrice r then ⟨1, 1, 0, 0⟩
  else
    match mappedBid m r with
    | some bid =>
      match fetch bid with
      | some p => if p = 0 then ⟨1, 0, 1, 0⟩ else ⟨1, 1, 0, 0⟩
      | none => ⟨1, 0, 1, 0⟩
    | none => ⟨0, 0, 0, 1⟩

/-- Result of one enrichment run: the processed records, the number of
remote fetch calls, the counters, the total number of records processed,
and whether the final report of lines 312-316 was produced (the guard at
lines 252-254 returns early without any statistics). -/
structure EnrichResult where
  recs : List Record
  calls : Nat
  stats : Stats
  total : Nat
  reported : Bool
deriving Repr, DecidableEq

/-- step3_enrich_with_issue_prices, lines 246-318: the guard at
lines 252-254 returns the input unchanged when the record list or the
mapping is empty; otherwise every record goes through the loop body and
the counters are accumulated in order. -/
def step3_enrich_with_issue_prices (json_data : List Record)
    (isin_bond_map : List (String × String)) (fetch : String → Option Rat) :
    EnrichResult :=
  if json_data.isEmpty || isin_bond_map.isEmpty then
    ⟨json_data, 0, ⟨0, 0, 0, 0⟩, 0, false⟩
  else
    ⟨json_data.map (processRecord isin_bond_map fetch),
     (json_data.map (recordCalls isin_bond_map)).sum,
     json_data.foldl (fun acc r => addStats acc (recordStats isin_bond_map fetch r)) ⟨0, 0, 0, 0⟩,
     json_data.length,
     true⟩

/-- The planner condition of lines 422-423 and 444-445: bondid missing
or null, or issueprice missing or null. -/
def needsEnrichment (r : Record) : Bool :=
  missingOrNull r.bondid || missingOrNull r.issueprice

/-- The worklist built at lines 420-424: the ISINs of the records that
still need enrichment. -/
def plan_isins (catalog : List Record) : List String :=
  (catalog.filter needsEnrichment).map Record.key

/-- Observable outcome of the step-2/step-3 section of main: the planned
worklist, whether the remote mapping retrieval of line 428 was invoked,
how many remote fetch calls were made, and the catalog handed to
persistence. -/
structure MainResult where
  planned : List String
  mappingConstructed : Bool
  fetchCalls : Nat
  finalCatalog : List Record
deriving Repr, DecidableEq

/-- Lines 420-462 of main: build the worklist; retrieve the mapping only
when the worklist is non-empty (lines 426-431); filter the records that
need enrichment (lines 442-446); when none do, skip enrichment and keep
the catalog unchanged (lines 460-462); otherwise enrich the subset and
write the enriched records back into the catalog by ISIN
(lines 448-459). -/
def main_phase23 (json_data : List Record) (webMapping : List (String × String))
    (fetch : String → Option Rat) : MainResult :=
  let isin_to_process := plan_isins json_data
  let isin_bond_map := if isin_to_process.isEmpty then [] else webMapping
  let records_to_process := json_data.filter needsEnrichment
  if records_to_process.isEmpty then
    ⟨isin_to_process, !isin_to_process.isEmpty, 0, json_data⟩
  else
    let res := step3_enrich_with_issue_prices records_to_process isin_bond_map fetch
    ⟨isin_to_process, !isin_to_process.isEmpty, res.calls,
     json_data.map (fun r =>
       match buildIndex res.recs r.key with
       | some e => e
       | none => r)⟩

theorem buildIndex_of_not_mem (rs : List Record) (k : String)
    (h : ∀ r ∈ rs, r.key ≠ k) : buildIndex rs k = none := by
  induction rs with
  | nil => rfl
  | cons r rest ih =>
    have h1 : buildIndex rest k = none := ih (fun q hq => h q (List.mem_cons_of_mem _ hq))
    have h2 : ¬ r.key = k := h r (List.mem_cons_self _ _)
    simp [buildIndex, h1, h2]

theorem buildIndex_self (rs : List Record) (hnd : nodupKeys rs) (p : Record)
    (hp : p ∈ rs) : buildIndex rs p.key = some p := by
  induction rs with
  | nil => cases hp
  | cons r rest ih =>
    rw [nodupKeys, List.map_cons, List.nodup_cons] at hnd
    rcases List.mem_cons.mp hp with h | h
    · subst h
      have hnm : ∀ q ∈ rest, q.key ≠ p.key := by
        intro q hq hqk
        exact hnd.1 (hqk ▸ List.mem_map_of_mem Record.key hq)
      simp [buildIndex, buildIndex_of_not_mem rest p.key hnm]
    · simp [buildIndex, ih hnd.2 h]

theorem mergeStatic_self {α : Type} (a : Option (Option α)) : mergeStatic a a = a := by
  rcases a with _ | b
  · rfl
  · rcases b with _ | v <;> rfl

theorem list_map_self {α : Type} (l : List α) (f : α → α) (h : ∀ x ∈ l, f x = x) :
    l.map f = l := by
  induction l with
  | nil => rfl
  | cons x t ih =>
    rw [List.map_cons, h x (List.mem_cons_self _ _),
      ih (fun y hy => h y (List.mem_cons_of_mem _ hy))]

/-- Claim C6: reconciling a catalog with itself (previous = X and
incoming = X) yields a catalog equal to X, for every catalog X (a catalog
has no duplicate keys). -/
theorem merge_idempotent (X : List Record) (hnd : nodupKeys X) :
    merge_data X X = X := by
  rcases hX : X.isEmpty with _ | _
  · rw [merge_data, hX, if_neg (by simp)]
    apply list_map_self
    intro r hr
    unfold mergeRecord
    rw [buildIndex_self X hnd r hr]
    simp [mergeStatic_self]
  · simp [merge_data, hX]

/-- Witness for C6 at a concrete two-record catalog. -/
theorem merge_idempotent_witness :
    merge_data
      [⟨"A", some (some "7"), some (some 5), [("price", some "100")]⟩,
       ⟨"B", none, some none, []⟩]
      [⟨"A", some (some "7"), some (some 5), [("price", some "100")]⟩,
       ⟨"B", none, some none, []⟩] =
      [⟨"A", some (some "7"), some (some 5), [("price", some "100")]⟩,
       ⟨"B", none, some none, []⟩] :=
  merge_idempotent _ (by decide)

/-- Claim C1: static-field preservation.  For every entity whose key is in
both the previous catalog and the incoming list, a static field that is
present and non-null in the prior record keeps its prior value in the
reconciled output, whatever the incoming record carried for it, and the
volatile fields are taken from the incoming record. -/
theorem merge_static_field_preservation (existing_data new_data : List Record)
    (hnd : nodupKeys existing_data) (p : Record) (hp : p ∈ existing_data)
    (i : Nat) (rin : Record) (hi : new_data[i]? = some rin) (hk : rin.key = p.key) :
    ∃ out, (merge_data existing_data new_data)[i]? = some out ∧
      out.key = rin.key ∧ out.volatile = rin.volatile ∧
      (∀ v, p.bondid = some (some v) → out.bondid = some (some v)) ∧
      (∀ q, p.issueprice = some (some q) → out.issueprice = some (some q)) := by
  have hidx : buildIndex existing_data rin.key = some p := by
    rw [hk]; exact buildIndex_self existing_data hnd p hp
  have hout : mergeRecord existing_data rin =
      { rin with bondid := mergeStatic p.bondid rin.bondid,
                 issueprice := mergeStatic p.issueprice rin.issueprice } := by
    unfold mergeRecord; rw [hidx]
  have hne : existing_data.isEmpty = false := by
    cases existing_data with
    | nil => cases hp
    | cons a b => rfl
  refine ⟨mergeRecord existing_data rin, ?_, ?_, ?_, ?_, ?_⟩
  · simp [merge_data, hne, List.getElem?_map, hi]
  · rw [hout]
  · rw [hout]
  · intro v hv; rw [hout]; simp [mergeStatic, hv]
  · intro q hq; rw [hout]; simp [mergeStatic, hq]

/-- Witness for C1: the prior record carries bondid "7" and issueprice 5,
the incoming record carries a null bondid, no issueprice and a fresh
volatile price. -/
theorem merge_static_field_preservation_witness :
    ∃ out,
      (merge_data [⟨"A", some (some "7"), some (some 5), []⟩]
          [⟨"A", some none, none, [("price", some "101")]⟩])[0]? = some out ∧
      out.key = "A" ∧
      out.volatile = [("price", some "101")] ∧
      (∀ v, (some (some "7") : Option (Option String)) = some (some v) →
        out.bondid = some (some v)) ∧
      (∀ q, (some (some (5 : Rat)) : Option (Option Rat)) = some (some q) →
        out.issueprice = some (some q)) :=
  merge_static_field_preservation
    [⟨"A", some (some "7"), some (some 5), []⟩]
    [⟨"A", some none, none, [("price", some "101")]⟩]
    (by decide)
    ⟨"A", some (some "7"), some (some 5), []⟩ (by decide)
    0 ⟨"A", some none, none, [("price", some "101")]⟩ (by decide) rfl

theorem key_inj (l : List Record) (hnd : nodupKeys l) (a b : Record)
    (ha : a ∈ l) (hb : b ∈ l) (hk : a.key = b.key) : a = b := by
  induction l with
  | nil => cases ha
  | cons r rest ih =>
    rw [nodupKeys, List.map_cons, List.nodup_cons] at hnd
    rcases List.mem_cons.mp ha with h1 | h1 <;> rcases List.mem_cons.mp hb with h2 | h2
    · rw [h1, h2]
    · exact absurd (hk ▸ List.mem_map_of_mem Record.key h2) (h1 ▸ hnd.1)
    · exact absurd (hk ▸ List.mem_map_of_mem Record.key h1) (h2 ▸ hnd.1)
    · exact ih hnd.2 h1 h2

/-- Claim C4: planner minimality.  An entity's identifier is in the
worklist iff its bondid is missing or null or its issueprice is missing
or null. -/
theorem plan_minimality (catalog : List Record) (hnd : nodupKeys catalog)
    (r : Record) (hr : r ∈ catalog) :
    r.key ∈ plan_isins catalog ↔
      (missingOrNull r.bondid = true ∨ missingOrNull r.issueprice = true) := by
  constructor
  · intro hmem
    rcases List.mem_map.mp hmem with ⟨r', hr', hkey⟩
    have h1 := List.mem_filter.mp hr'
    have hreq : r' = r := key_inj catalog hnd r' r h1.1 hr hkey
    have h2 := h1.2
    rw [hreq] at h2
    simpa [needsEnrichment, Bool.or_eq_true] using h2
  · intro hcond
    exact List.mem_map.mpr
      ⟨r, List.mem_filter.mpr
        ⟨hr, by simpa [needsEnrichment, Bool.or_eq_true] using hcond⟩, rfl⟩

/-- Witness for C4: a record with a null issueprice is planned, a record
with both static fields valid is not. -/
theorem plan_minimality_witness :
    ("A" : String) ∈ plan_isins
        [⟨"A", some (some "7"), some none, []⟩,
         ⟨"B", some (some "8"), some (some 5), []⟩] ∧
    ¬ (("B" : String) ∈ plan_isins
        [⟨"A", some (some "7"), some none, []⟩,
         ⟨"B", some (some "8"), some (some 5), []⟩]) := by
  constructor
  · exact (plan_minimality _ (by decide)
      ⟨"A", some (some "7"), some none, []⟩ (by decide)).mpr (Or.inr rfl)
  · intro hmem
    have h := (plan_minimality _ (by decide)
      ⟨"B", some (some "8"), some (some 5), []⟩ (by decide)).mp hmem
    rcases h with h | h <;> exact absurd h (by decide)

/-- Claim C5: zero-cost re-run.  When every entity has both static fields
present and non-null, the planned worklist is empty, the remote mapping
is not constructed, no fetch call is made, and the catalog handed to
persistence is the input catalog unchanged. -/
theorem zero_cost_rerun (catalog : List Record) (webMapping : List (String × String))
    (fetch : String → Option Rat)
    (h : ∀ r ∈ catalog, missingOrNull r.bondid = false ∧ missingOrNull r.issueprice = false) :
    plan_isins catalog = [] ∧
    main_phase23 catalog webMapping fetch = ⟨[], false, 0, catalog⟩ := by
  have hfil : catalog.filter needsEnrichment = [] := by
    rw [List.filter_eq_nil_iff]
    intro a ha
    simp [needsEnrichment, (h a ha).1, (h a ha).2]
  have hplan : plan_isins catalog = [] := by simp [plan_isins, hfil]
  refine ⟨hplan, ?_⟩
  unfold main_phase23
  simp [hplan, hfil]

/-- Witness for C5 at a concrete fully-resolved one-record catalog. -/
theorem zero_cost_rerun_witness :
    plan_isins [⟨"A", some (some "7"), some (some 5), []⟩] = [] ∧
    main_phase23 [⟨"A", some (some "7"), some (some 5), []⟩] [("A", "9")]
        (fun _ => none) =
      ⟨[], false, 0, [⟨"A", some (some "7"), some (some 5), []⟩]⟩ :=
  zero_cost_rerun _ _ _ (by decide)

theorem fetchLoop_cons_ok (b : Nat) (body : Option String) (rest : List Resp) :
    fetchLoop b (Resp.ok body :: rest) = some (parseBody body, []) := rfl

theorem fetchLoop_cons_exn (b : Nat) (rest : List Resp) :
    fetchLoop b (Resp.exn :: rest) = some (none, []) := rfl

theorem fetchLoop_cons_http (b status : Nat) (rest : List Resp) :
    fetchLoop b (Resp.http status :: rest) =
      if status = 429 then
        match fetchLoop (min (b * 2) 600) rest with
        | some (res, waits) => some (res, b :: waits)
        | none => none
      else some (none, []) := rfl

theorem backoff_double_cap (j : Nat) :
    min (min (60 * 2 ^ j) 600 * 2) 600 = min (60 * 2 ^ (j + 1)) 600 := by
  rcases le_total (60 * 2 ^ j) 600 with h | h
  · rw [min_eq_left h, pow_succ, ← mul_assoc]
  · have h2 : 600 ≤ 60 * 2 ^ (j + 1) := by
      calc (600 : Nat) ≤ 60 * 2 ^ j := h
        _ ≤ 60 * 2 ^ (j + 1) := by
            exact Nat.mul_le_mul le_rfl (Nat.pow_le_pow_right (by norm_num) (Nat.le_succ j))
    rw [min_eq_right h, min_eq_right h2]
    norm_num

theorem fetchLoop_waits (resps : List Resp) : ∀ (j : Nat) (res : Option Rat) (waits : List Nat),
    fetchLoop (min (60 * 2 ^ j) 600) resps = some (res, waits) →
    ∀ i, (hi : i < waits.length) → waits.get ⟨i, hi⟩ = min (60 * 2 ^ (j + i)) 600 := by
  induction resps with
  | nil => intro j res waits h; exact absurd h (by simp [fetchLoop])
  | cons r rest ih =>
    intro j res waits h
    match r with
    | Resp.ok body =>
      rw [fetchLoop_cons_ok] at h
      simp only [Option.some.injEq, Prod.mk.injEq] at h
      intro i hi
      rw [← h.2] at hi
      exact absurd hi (by simp)
    | Resp.exn =>
      rw [fetchLoop_cons_exn] at h
      simp only [Option.some.injEq, Prod.mk.injEq] at h
      intro i hi
      rw [← h.2] at hi
      exact absurd hi (by simp)
    | Resp.http status =>
      rw [fetchLoop_cons_http] at h
      by_cases hs : status = 429
      · rw [if_pos hs, backoff_double_cap j] at h
        rcases hrec : fetchLoop (min (60 * 2 ^ (j + 1)) 600) rest with _ | ⟨res', waits'⟩
        · rw [hrec] at h; simp at h
        · rw [hrec] at h
          simp only [Option.some.injEq, Prod.mk.injEq] at h
          obtain ⟨h1, h2⟩ := h
          subst h2
          intro i hi
          match i with
          | 0 => simp
          | Nat.succ i' =>
            have hi' : i' < waits'.length := Nat.lt_of_succ_lt_succ hi
            have hrec' := ih (j + 1) res' waits' hrec i' hi'
            have hexp : j + Nat.succ i' = j + 1 + i' := by omega
            show waits'.get ⟨i', hi'⟩ = min (60 * 2 ^ (j + Nat.succ i')) 600
            rw [hexp]
            exact hrec'
      · rw [if_neg hs] at h
        simp only [Option.some.injEq, Prod.mk.injEq] at h
        intro i hi
        rw [← h.2] at hi
        exact absurd hi (by simp)

/-- Claim C2 (amended): within one call of the fetcher, the backoff starts
at 60 seconds, doubles after every rate-limit signal and is capped at
600 seconds, so the waits of one call form the non-decreasing sequence
60, 120, 240, 480, 600, 600, ...; the backoff is local to the call and is
reset to 60 by the next call. -/
theorem fetch_backoff_schedule (resps : List Resp) (res : Option Rat) (waits : List Nat)
    (h : step3_get_issue_price resps = some (res, waits)) :
    (∀ i, (hi : i < waits.length) → waits.get ⟨i, hi⟩ = min (60 * 2 ^ i) 600) ∧
    (∀ i k, (hi : i < waits.length) → (hk : k < waits.length) → i ≤ k →
      waits.get ⟨i, hi⟩ ≤ waits.get ⟨k, hk⟩) ∧
    (∀ i, (hi : i < waits.length) → waits.get ⟨i, hi⟩ ≤ 600) := by
  have h60 : (60 : Nat) = min (60 * 2 ^ 0) 600 := by norm_num
  rw [step3_get_issue_price, h60] at h
  have hw := fetchLoop_waits resps 0 res waits h
  refine ⟨?_, ?_, ?_⟩
  · intro i hi; simpa using hw i hi
  · intro i k hi hk hik
    rw [hw i hi, hw k hk]
    simp only [Nat.zero_add]
    exact min_le_min
      (Nat.mul_le_mul le_rfl (Nat.pow_le_pow_right (by norm_num) hik)) le_rfl
  · intro i hi; rw [hw i hi]; exact min_le_right _ _

/-- Witness for the amended C2: six rate-limit signals in one call produce
the waits 60, 120, 240, 480, 600, 600. -/
theorem fetch_backoff_schedule_witness :
    step3_get_issue_price
        [Resp.http 429, Resp.http 429, Resp.http 429, Resp.http 429,
         Resp.http 429, Resp.http 429, Resp.ok none] =
      some (none, [60, 120, 240, 480, 600, 600]) ∧
    ([60, 120, 240, 480, 600, 600] : List Nat).get ⟨4, by norm_num⟩ =
      min (60 * 2 ^ 4) 600 :=
  ⟨by decide,
   (fetch_backoff_schedule
      [Resp.http 429, Resp.http 429, Resp.http 429, Resp.http 429,
       Resp.http 429, Resp.http 429, Resp.ok none]
      none [60, 120, 240, 480, 600, 600] (by decide)).1 4 (by norm_num)⟩

/-- Counterexample to Claim C2 as stated: two consecutive fetch calls in
one run, each hit by one rate-limit signal, wait 60 and then 60 again,
not 60 then 120: the backoff is a local variable re-initialized to 60 at
every call, so it does not persist across calls. -/
theorem backoff_reset_between_calls :
    run_two_fetches [Resp.http 429, Resp.ok none] [Resp.http 429, Resp.ok none] =
      some [60, 60] ∧
    ([60, 60] : List Nat) ≠ [60, 120] :=
  ⟨by decide, by decide⟩

/-- Claim C7: every request outcome other than a rate-limit signal that
the loop treats as a failure (non-429 HTTP error, transport error or
other exception, missing issueprice tag, unparsable tag text) makes the
fetcher return null at once, consuming no further response and never
propagating an exception, whatever the current backoff is. -/
theorem fetch_failure_absorbed (backoff : Nat) (r : Resp) (rest : List Resp)
    (h : isTerminalFailure r = true) :
    fetchLoop backoff (r :: rest) = some (none, []) ∧
    step3_get_issue_price (r :: rest) = some (none, []) := by
  have hgen : ∀ b : Nat, fetchLoop b (r :: rest) = some (none, []) := by
    intro b
    match r with
    | Resp.ok none => rfl
    | Resp.ok (some s) =>
      have hs : parse_price_text s = none := by
        simpa [isTerminalFailure, Option.isNone_iff_eq_none] using h
      rw [fetchLoop_cons_ok]
      simp [parseBody, hs]
    | Resp.http status =>
      have hs : ¬ status = 429 := by simpa [isTerminalFailure] using h
      rw [fetchLoop_cons_http, if_neg hs]
    | Resp.exn => rfl
  exact ⟨hgen backoff, hgen 60⟩

/-- Witness for C7: a 500 error with an elevated backoff returns null
immediately without touching the rest of the oracle. -/
theorem fetch_failure_absorbed_witness :
    fetchLoop 480 [Resp.http 500, Resp.ok (some "99")] = some (none, []) ∧
    step3_get_issue_price [Resp.http 500, Resp.ok (some "99")] = some (none, []) :=
  fetch_failure_absorbed 480 (Resp.http 500) [Resp.ok (some "99")] (by decide)

/-- Claim C8: the fetcher turns comma decimals into dot decimals before
parsing, so the price text "98,75" is parsed as the number 98.75 (and a
dot decimal parses identically), while unparsable text yields null. -/
theorem decimal_normalization :
    step3_get_issue_price [Resp.ok (some "98,75")] = some (some (98.75 : Rat), []) ∧
    parse_price_text "98,75" = some (98.75 : Rat) ∧
    parse_price_text "98.75" = some (98.75 : Rat) ∧
    parse_price_text "abc" = none := by
  have hp : parse_price_text "98,75" = some (98.75 : Rat) := by
    have hd : parseDecimal (replaceCommaDot (stripWs "98,75".data)) =
        some (false, 9875, 2) := by decide
    rw [parse_price_text, hd]
    show some (ratOfParts (false, 9875, 2)) = some (98.75 : Rat)
    norm_num [ratOfParts]
  have hp2 : parse_price_text "98.75" = some (98.75 : Rat) := by
    have hd : parseDecimal (replaceCommaDot (stripWs "98.75".data)) =
        some (false, 9875, 2) := by decide
    rw [parse_price_text, hd]
    show some (ratOfParts (false, 9875, 2)) = some (98.75 : Rat)
    norm_num [ratOfParts]
  have hstep : step3_get_issue_price [Resp.ok (some "98,75")] =
      some (parse_price_text "98,75", []) := rfl
  exact ⟨by rw [hstep, hp], hp, hp2, by decide⟩

theorem fetchLoop_total (resps : List Resp) : ∀ b : Nat,
    (∃ r ∈ resps, is429 r = false) → (fetchLoop b resps).isSome = true := by
  induction resps with
  | nil =>
    intro b h
    rcases h with ⟨r, hr, _⟩
    cases hr
  | cons r rest ih =>
    intro b h
    match r with
    | Resp.ok body => rw [fetchLoop_cons_ok]; rfl
    | Resp.exn => rw [fetchLoop_cons_exn]; rfl
    | Resp.http status =>
      by_cases hs : status = 429
      · subst hs
        have h' : ∃ q ∈ rest, is429 q = false := by
          rcases h with ⟨q, hq, hq4⟩
          rcases List.mem_cons.mp hq with h1 | h1
          · rw [h1] at hq4; exact absurd hq4 (by decide)
          · exact ⟨q, h1, hq4⟩
        have hrec := ih (min (b * 2) 600) h'
        rw [fetchLoop_cons_http, if_pos rfl]
        rcases hr : fetchLoop (min (b * 2) 600) rest with _ | ⟨res, waits⟩
        · rw [hr] at hrec; simp at hrec
        · rfl
      · rw [fetchLoop_cons_http, if_neg hs]; rfl

/-- Claim C10: whenever the response sequence contains a non-rate-limit
outcome, the fetch loop returns a value: every branch other than the 429
branch returns, only the 429 branch continues. -/
theorem fetch_terminates_without_perpetual_throttle (resps : List Resp)
    (h : ∃ r ∈ resps, is429 r = false) :
    (step3_get_issue_price resps).isSome = true :=
  fetchLoop_total resps 60 h

/-- Witness for C10: one throttle reply followed by a transport error
still returns. -/
theorem fetch_terminates_witness :
    (step3_get_issue_price [Resp.http 429, Resp.exn]).isSome = true :=
  fetch_terminates_without_perpetual_throttle _ ⟨Resp.exn, by decide⟩

/-- Counterexample to Claim C3 as stated: a worklist record that already
carries a valid issueprice but lacks bondid is skipped by the guard at
lines 282-285: although its identifier is in the mapping, no remote call
is made, bondid is not set from the mapping, and the record is counted
as a found price. -/
theorem enrich_skips_mapped_record :
    needsEnrichment ⟨"A", none, some (some 5), []⟩ = true ∧
    lastAssoc [("A", "7")] "A" = some "7" ∧
    step3_enrich_with_issue_prices [⟨"A", none, some (some 5), []⟩] [("A", "7")]
        (fun _ => some 3) =
      ⟨[⟨"A", none, some (some 5), []⟩], 0, ⟨1, 1, 0, 0⟩, 1, true⟩ ∧
    (⟨"A", none, some (some 5), []⟩ : Record).bondid ≠ some (some "7") := by
  refine ⟨by decide, by decide, by decide, by decide⟩

/-- Claim C3 (amended): for every worklist entity that does not already
carry a valid issueprice, if its identifier is non-empty and present in
the mapping the executor sets bondid from the mapping and makes exactly
one fetch call, setting issueprice to the result and counting a success
when the result is non-null and non-zero, and setting issueprice to null
and counting a failure when the result is null or zero; if the
identifier is absent from the mapping (or empty), it sets bondid and
issueprice to null and makes no remote call.  Entities already carrying
a valid issueprice are skipped unchanged with no remote call. -/
theorem enrich_per_record_contract (m : List (String × String))
    (fetch : String → Option Rat) (r : Record)
    (hskip : hasValidIssuePrice r = false) :
    (∀ bid, mappedBid m r = some bid →
      recordCalls m r = 1 ∧
      (∀ p, fetch bid = some p → ¬ p = 0 →
        processRecord m fetch r =
          { r with bondid := some (some bid), issueprice := some (some p) } ∧
        recordStats m fetch r = ⟨1, 1, 0, 0⟩) ∧
      ((fetch bid = none ∨ fetch bid = some 0) →
        processRecord m fetch r =
          { r with bondid := some (some bid), issueprice := some none } ∧
        recordStats m fetch r = ⟨1, 0, 1, 0⟩)) ∧
    (mappedBid m r = none →
      recordCalls m r = 0 ∧
      processRecord m fetch r = { r with bondid := some none, issueprice := some none } ∧
      recordStats m fetch r = ⟨0, 0, 0, 1⟩) := by
  constructor
  · intro bid hbid
    refine ⟨by simp [recordCalls, hskip, hbid], ?_, ?_⟩
    · intro p hp hp0
      exact ⟨by simp [processRecord, hskip, hbid, hp, hp0],
             by simp [recordStats, hskip, hbid, hp, hp0]⟩
    · intro hfail
      rcases hfail with hf | hf
      · exact ⟨by simp [processRecord, hskip, hbid, hf],
               by simp [recordStats, hskip, hbid, hf]⟩
      · exact ⟨by simp [processRecord, hskip, hbid, hf],
               by simp [recordStats, hskip, hbid, hf]⟩
  · intro hnone
    exact ⟨by simp [recordCalls, hskip, hnone],
           by simp [processRecord, hskip, hnone],
           by simp [recordStats, hskip, hnone]⟩

/-- Witness for the amended C3: a mapped record with no issueprice gets
bondid "7" and issueprice 3 from one successful fetch call. -/
theorem enrich_per_record_contract_witness :
    processRecord [("A", "7")] (fun _ => some 3) ⟨"A", some none, none, []⟩ =
      ⟨"A", some (some "7"), some (some 3), []⟩ ∧
    recordCalls [("A", "7")] ⟨"A", some none, none, []⟩ = 1 ∧
    recordStats [("A", "7")] (fun _ => some 3) ⟨"A", some none, none, []⟩ =
      ⟨1, 1, 0, 0⟩ := by
  have h := enrich_per_record_contract [("A", "7")] (fun _ => some 3)
    ⟨"A", some none, none, []⟩ (by decide)
  have h1 := h.1 "7" (by decide)
  have h2 := h1.2.1 3 rfl (by decide)
  exact ⟨h2.1, h1.1, h2.2⟩

theorem recordStats_sum (m : List (String × String)) (fetch : String → Option Rat)
    (r : Record) :
    (recordStats m fetch r).bondid_added + (recordStats m fetch r).unresolved = 1 ∧
    (recordStats m fetch r).price_found + (recordStats m fetch r).price_not_found =
      (recordStats m fetch r).bondid_added := by
  unfold recordStats
  rcases hv : hasValidIssuePrice r with _ | _
  · rcases hb : mappedBid m r with _ | bid
    · simp [hb]
    · rcases hf : fetch bid with _ | p
      · simp [hb, hf]
      · by_cases hp : p = 0
        · simp [hb, hf, hp]
        · simp [hb, hf, hp]
  · simp

theorem foldl_stats_fst (m : List (String × String)) (fetch : String → Option Rat)
    (l : List Record) : ∀ acc : Stats,
    (l.foldl (fun a r => addStats a (recordStats m fetch r)) acc).bondid_added +
      (l.foldl (fun a r => addStats a (recordStats m fetch r)) acc).unresolved =
      acc.bondid_added + acc.unresolved + l.length := by
  induction l with
  | nil => intro acc; simp
  | cons r t ih =>
    intro acc
    have hd := (recordStats_sum m fetch r).1
    rw [List.foldl_cons, ih (addStats acc (recordStats m fetch r)), List.length_cons]
    simp only [addStats]
    omega

theorem foldl_stats_snd (m : List (String × String)) (fetch : String → Option Rat)
    (l : List Record) : ∀ acc : Stats,
    (l.foldl (fun a r => addStats a (recordStats m fetch r)) acc).price_found +
        (l.foldl (fun a r => addStats a (recordStats m fetch r)) acc).price_not_found +
        acc.bondid_added =
      (l.foldl (fun a r => addStats a (recordStats m fetch r)) acc).bondid_added +
        acc.price_found + acc.price_not_found := by
  induction l with
  | nil => intro acc; simp; omega
  | cons r t ih =>
    intro acc
    have hd := (recordStats_sum m fetch r).2
    have ht := ih (addStats acc (recordStats m fetch r))
    rw [List.foldl_cons]
    simp only [addStats] at ht ⊢
    omega

/-- Claim C9: whenever the enrichment run reports statistics, they satisfy
the sum invariants: records given a bondid plus records left unresolved
equals the worklist size, and prices found plus prices missing equals the
records given a bondid. -/
theorem enrich_stats_exact (json_data : List Record) (m : List (String × String))
    (fetch : String → Option Rat)
    (h : (step3_enrich_with_issue_prices json_data m fetch).reported = true) :
    (step3_enrich_with_issue_prices json_data m fetch).stats.bondid_added +
        (step3_enrich_with_issue_prices json_data m fetch).stats.unresolved =
      (step3_enrich_with_issue_prices json_data m fetch).total ∧
    (step3_enrich_with_issue_prices json_data m fetch).stats.price_found +
        (step3_enrich_with_issue_prices json_data m fetch).stats.price_not_found =
      (step3_enrich_with_issue_prices json_data m fetch).stats.bondid_added := by
  rcases hg : (json_data.isEmpty || m.isEmpty) with _ | _
  · rw [step3_enrich_with_issue_prices, hg] at h ⊢
    simp only [Bool.false_eq_true, if_false]
    constructor
    · have h1 := foldl_stats_fst m fetch json_data ⟨0, 0, 0, 0⟩
      simpa using h1
    · have h2 := foldl_stats_snd m fetch json_data ⟨0, 0, 0, 0⟩
      simpa using h2
  · rw [step3_enrich_with_issue_prices, hg] at h
    simp at h

/-- Witness for C9 at a concrete three-record worklist exercising the
mapped, unmapped and skip branches. -/
theorem enrich_stats_exact_witness :
    (step3_enrich_with_issue_prices
        [⟨"A", some none, none, []⟩, ⟨"B", none, none, []⟩,
         ⟨"C", none, some (some 4), []⟩]
        [("A", "7")] (fun _ => none)).reported = true ∧
    (step3_enrich_with_issue_prices
        [⟨"A", some none, none, []⟩, ⟨"B", none, none, []⟩,
         ⟨"C", none, some (some 4), []⟩]
        [("A", "7")] (fun _ => none)).stats.bondid_added +
      (step3_enrich_with_issue_prices
        [⟨"A", some none, none, []⟩, ⟨"B", none, none, []⟩,
         ⟨"C", none, some (some 4), []⟩]
        [("A", "7")] (fun _ => none)).stats.unresolved =
      (step3_enrich_with_issue_prices
        [⟨"A", some none, none, []⟩, ⟨"B", none, none, []⟩,
         ⟨"C", none, some (some 4), []⟩]
        [("A", "7")] (fun _ => none)).total :=
  ⟨by decide,
   (enrich_stats_exact
      [⟨"A", some none, none, []⟩, ⟨"B", none, none, []⟩,
       ⟨"C", none, some (some 4), []⟩]
      [("A", "7")] (fun _ => none) (by decide)).1⟩
